import Mathlib

set_option maxRecDepth 100000

/-!
Verification of the node identity / address-normalization model and the
expiration sweep of `django_netjsongraph/base/node.py`.

Python strings are embedded as `List Char`; `str.replace(',', ';')` on
single characters is a character map, `str.replace(' ', '')` is a filter,
`s[1:]` is `drop 1`, `s[0:-1]` is `dropLast`, and `str.split(sep)` is
`splitChar` below (which, like Python, yields `[""]` on the empty string).
Timestamps are integers (seconds); `timedelta(days=d)` is `d * 86400`.
Fallible operations (Python exceptions such as `[].pop()` raising
`IndexError`) return `Option`.
-/

/-- Python strings are modelled as lists of characters. -/
abbrev Str := List Char

/-- Maximum length of the `addresses` column:
`addresses = models.CharField(max_length=510, db_index=True)`. -/
def addressesMaxLength : Nat := 510

/-- Model of `self.addresses.replace(',', ';').replace(' ', '').replace(';', ';')`
(the final `.replace(';', ';')` is a no-op and is omitted). -/
def replaceSteps (s : Str) : Str :=
  (s.map (fun c => if c = ',' then ';' else c)).filter (fun c => c ≠ ' ')

/-- Model of `if not self.addresses.startswith(';'): self.addresses = ';' + self.addresses`. -/
def ensureLeadingSem (u : Str) : Str :=
  if u.head? = some ';' then u else ';' :: u

/-- Model of `if not self.addresses.endswith(';'): self.addresses += ';'`. -/
def ensureTrailingSem (v : Str) : Str :=
  if v.getLast? = some ';' then v else v ++ [';']

/-- Model of `AbstractNode._format_addresses`: the three statements of the method
in source order. -/
def format_addresses (s : Str) : Str :=
  ensureTrailingSem (ensureLeadingSem (replaceSteps s))

/-- Python `str.split(sep)` for a single-character separator: never drops
empty pieces, and the empty string splits to `[""]`. -/
def splitChar (sep : Char) : Str → List Str
  | [] => [[]]
  | c :: cs =>
    if c = sep then [] :: splitChar sep cs
    else
      match splitChar sep cs with
      | h :: t => (c :: h) :: t
      | [] => [[c]]

/-- Model of `if addresses.startswith(';'): addresses = addresses[1:]`. -/
def stripLeadingSem (b : Str) : Str :=
  if b.head? = some ';' then b.drop 1 else b

/-- Model of `AbstractNode.address_list`: remove spaces, strip one leading `';'`
when present, drop the last character (`[0:-1]`), split on `';'`. -/
def address_list (a : Str) : List Str :=
  splitChar ';' ((stripLeadingSem (a.filter (fun c => c ≠ ' '))).dropLast)

/-- Model of `AbstractNode.netjson_id`: `if self.addresses: return self.address_list[0]`;
returns `None` (here `none`) for a falsy (empty) addresses string. -/
def netjson_id (a : Str) : Option Str :=
  if a.isEmpty then none else (address_list a).head?

/-- Model of `AbstractNode.local_addresses`:
`if self.addresses and len(self.address_list) > 1: return self.address_list[1:]`. -/
def local_addresses (a : Str) : Option (List Str) :=
  if ¬a.isEmpty ∧ (address_list a).length > 1 then some ((address_list a).drop 1)
  else none

/-- The `while` loop of `AbstractNode.truncate_addresses`:
`while len(';'.join(addresses)) + 2 > max_length: addresses.pop()`.
`[].pop()` raises `IndexError`, modelled as `none`. Each iteration pops
exactly one element, so running the loop with `fuel = l.length` is exact;
the fuel-exhausted-on-a-nonempty-list case is unreachable for such fuel
(`truncateLoop_spec` below) and also yields `none`. -/
def truncateLoop (maxL : Nat) (fuel : Nat) (l : List Str) : Option (List Str) :=
  if (List.intercalate [';'] l).length + 2 > maxL then
    match fuel, l with
    | _, [] => none
    | 0, _ :: _ => none
    | f + 1, x :: xs => truncateLoop maxL f ((x :: xs).dropLast)
  else some l

/-- Model of `AbstractNode.truncate_addresses`: return unchanged when the field fits;
otherwise run the removal loop on `address_list` and store
`';'.join(addresses)` (note: no bounding delimiters are re-added here). -/
def truncate_addresses (a : Str) : Option Str :=
  if a.length ≤ addressesMaxLength then some a
  else
    (truncateLoop addressesMaxLength (address_list a).length
      (address_list a)).map (List.intercalate [';'])

/-- Value stored in the `properties` JSON mapping. -/
inductive JVal where
  | s (v : String)
  | i (v : Int)
  | b (v : Bool)
  | null
deriving DecidableEq, Repr

/-- The node row: `topology` is the foreign key (embedded as an id),
`label` and `addresses` are char fields, `properties` an ordered JSON
mapping, `created` / `modified` the timestamps from
`TimeStampedEditableModel`, and the two link counts stand for the reverse
relations `source_link_set` / `target_link_set` of the external Link
collaborator. -/
structure Node where
  topology : Nat
  label : Str
  addresses : Str
  properties : List (String × JVal)
  created : Int
  modified : Int
  sourceLinkCount : Nat
  targetLinkCount : Nat
deriving DecidableEq, Repr

/-- Model of `AbstractNode.save`: `self._format_addresses()` then the superclass
save (persistence, which stores the fields as they now are). -/
def save (n : Node) : Node :=
  { n with addresses := format_addresses n.addresses }

/-- Python dict assignment `d[k] = v` on an ordered dict: overwrite in
place when the key exists, else append at the end. -/
def setKey (d : List (String × JVal)) (k : String) (v : JVal) :
    List (String × JVal) :=
  if d.any (fun p => p.1 = k) then
    d.map (fun p => if p.1 = k then (k, v) else p)
  else d ++ [(k, v)]

def createdKey : String := "created"
def modifiedKey : String := "modified"

/-- Value of an entry of the NetJSON output mapping built by
`AbstractNode.json`. -/
inductive OutVal where
  | ident (v : Option Str)
  | text (v : Str)
  | addrs (v : List Str)
  | props (v : List (String × JVal))
deriving DecidableEq, Repr

def idKey : String := "id"
def labelKey : String := "label"
def localAddressesKey : String := "local_addresses"
def propertiesKey : String := "properties"

/-- Model of `AbstractNode.json(dict=True)`: build the ordered mapping with `id`
first, then `label` / `local_addresses` when truthy and `properties`
unconditionally, then execute
`netjson['properties']['created'] = self.created` and
`netjson['properties']['modified'] = self.modified`. In Python
`netjson['properties']` is the very dict object `self.properties`, so the
two assignments also mutate the node's stored mapping; the returned pair
is (output mapping, node as it is after the call). -/
def jsonNode (n : Node) : List (String × OutVal) × Node :=
  let props2 := setKey (setKey n.properties createdKey (JVal.i n.created))
      modifiedKey (JVal.i n.modified)
  let out := [(idKey, OutVal.ident (netjson_id n.addresses))]
    ++ (if ¬n.label.isEmpty then [(labelKey, OutVal.text n.label)] else [])
    ++ (match local_addresses n.addresses with
        | some l => [(localAddressesKey, OutVal.addrs l)]
        | none => [])
    ++ [(propertiesKey, OutVal.props props2)]
  (out, { n with properties := props2 })

/-- Test that `needle` begins `hay` (Python-style list/string comparison). -/
def leadsWith : Str → Str → Bool
  | [], _ => true
  | _ :: _, [] => false
  | a :: as, b :: bs => a == b && leadsWith as bs

/-- Python `needle in hay` substring test, used by the ORM filter
`addresses__contains`. -/
def occursIn (needle : Str) : Str → Bool
  | [] => needle.isEmpty
  | c :: cs => leadsWith needle (c :: cs) || occursIn needle cs

/-- Model of `';{0};'.format(address)`: wrap the queried address in its own
bounding delimiters. -/
def wrapAddress (a : Str) : Str := ';' :: (a ++ [';'])

/-- The ORM predicate of `get_from_address` / `count_address`:
`filter(topology=topology, addresses__contains=';{address};')`. -/
def matchesAddress (a : Str) (t : Nat) (n : Node) : Bool :=
  n.topology == t && occursIn (wrapAddress a) n.addresses

/-- Model of `AbstractNode.get_from_address`: first node of the topology whose
`addresses` contains the wrapped address, or `None`. -/
def get_from_address (a : Str) (t : Nat) (nodes : List Node) : Option Node :=
  (nodes.filter (matchesAddress a t)).head?

/-- Model of `AbstractNode.count_address`: number of nodes of the topology whose
`addresses` contains the wrapped address. -/
def count_address (a : Str) (t : Nat) (nodes : List Node) : Nat :=
  (nodes.filter (matchesAddress a t)).length

/-- The two configuration options consumed by the sweep; `none` stands
for the disabled sentinels `False` / `None`. -/
structure NetSettings where
  nodeExpiration : Option Int
  linkExpiration : Option Int

/-- The ORM filter of `delete_expired_nodes`:
`modified__lt=expiration_date, source_link_set__isnull=True,
target_link_set__isnull=True`. -/
def nodeIsExpired (expirationDate : Int) (n : Node) : Bool :=
  decide (n.modified < expirationDate) && n.sourceLinkCount == 0
    && n.targetLinkCount == 0

/-- Model of `AbstractNode.delete_expired_nodes`: when both `NODE_EXPIRATION` and
`LINK_EXPIRATION` are enabled, delete every node modified strictly before
`now - timedelta(days=NODE_EXPIRATION)` that has no source and no target
links; otherwise do nothing. Returns the surviving rows. -/
def delete_expired_nodes (st : NetSettings) (now : Int) (nodes : List Node) :
    List Node :=
  match st.nodeExpiration, st.linkExpiration with
  | some ne, some _ =>
    nodes.filter (fun n => !(nodeIsExpired (now - ne * 86400) n))
  | _, _ => nodes

/-- Node whose raw `addresses` value is 520 characters with no comma,
space or semicolon. -/
def nBig : Node :=
  { topology := 0, label := [], addresses := List.replicate 520 'a',
    properties := [], created := 0, modified := 0,
    sourceLinkCount := 0, targetLinkCount := 0 }

/-- Canonical two-address string of length 603, long enough that the
truncation loop drops the second address. -/
def bigTwo : Str :=
  ';' :: (List.replicate 300 'a' ++ [';'] ++ List.replicate 300 'b' ++ [';'])

/-- Canonical three-address string of length 604. -/
def bigFive : Str :=
  ';' :: (List.replicate 200 'x' ++ [';'] ++ List.replicate 200 'y' ++ [';']
    ++ List.replicate 200 'z' ++ [';'])

/-- Canonical string holding a single address of 600 characters, longer by
itself than the maximum field length. -/
def longSingle : Str := ';' :: (List.replicate 600 'a' ++ [';'])

/-- Node with an empty stored `properties` mapping. -/
def n9 : Node :=
  { topology := 0, label := [], addresses := [';', 'x', ';'], properties := [],
    created := 5, modified := 7, sourceLinkCount := 0, targetLinkCount := 0 }

/-- The queried address `10.0.0.1` of the lookup boundary scenario. -/
def addrOne : Str := ['1', '0', '.', '0', '.', '0', '.', '1']

/-- The stored address `10.0.0.10`, a strict extension of `10.0.0.1`. -/
def addrTen : Str := ['1', '0', '.', '0', '.', '0', '.', '1', '0']

/-- Node whose only stored address is `10.0.0.10` (delimiter-bounded). -/
def nodeTen : Node :=
  { topology := 0, label := [], addresses := ';' :: (addrTen ++ [';']),
    properties := [], created := 0, modified := 0,
    sourceLinkCount := 0, targetLinkCount := 0 }

/-- Sweep configuration `NODE_EXPIRATION=30`, `LINK_EXPIRATION=30`. -/
def st30 : NetSettings := { nodeExpiration := some 30, linkExpiration := some 30 }

/-- Node last modified 40 days ago (in seconds before `now = 0`), no links. -/
def sweepA : Node :=
  { topology := 0, label := [], addresses := [';', 'a', ';'], properties := [],
    created := 0, modified := -3456000, sourceLinkCount := 0, targetLinkCount := 0 }

/-- Node last modified 40 days ago, with one incoming link. -/
def sweepB : Node :=
  { topology := 0, label := [], addresses := [';', 'b', ';'], properties := [],
    created := 0, modified := -3456000, sourceLinkCount := 1, targetLinkCount := 0 }

/-- Node last modified 10 days ago, no links. -/
def sweepC : Node :=
  { topology := 0, label := [], addresses := [';', 'c', ';'], properties := [],
    created := 0, modified := -864000, sourceLinkCount := 0, targetLinkCount := 0 }

/-- The three-node table of the sweep scenario. -/
def sweepNodes : List Node := [sweepA, sweepB, sweepC]

lemma ensureLeadingSem_head? (u : Str) :
    (ensureLeadingSem u).head? = some ';' := by
  unfold ensureLeadingSem
  split
  · assumption
  · rfl

lemma head?_concat_of_head? (v : Str) (h : v.head? = some ';') :
    (v ++ [';']).head? = some ';' := by
  cases v with
  | nil => simp at h
  | cons a t => simpa using h

lemma ensureTrailingSem_getLast? (v : Str) :
    (ensureTrailingSem v).getLast? = some ';' := by
  unfold ensureTrailingSem
  split
  · assumption
  · exact List.getLast?_concat _

lemma ensureTrailingSem_head? (v : Str) (h : v.head? = some ';') :
    (ensureTrailingSem v).head? = some ';' := by
  unfold ensureTrailingSem
  split
  · exact h
  · exact head?_concat_of_head? _ h

lemma format_addresses_head? (s : Str) :
    (format_addresses s).head? = some ';' :=
  ensureTrailingSem_head? _ (ensureLeadingSem_head? _)

lemma format_addresses_getLast? (s : Str) :
    (format_addresses s).getLast? = some ';' :=
  ensureTrailingSem_getLast? _

lemma mem_replaceSteps_ne_space (c : Char) (s : Str) (h : c ∈ replaceSteps s) :
    (c != ' ') = true := by
  have := (List.mem_filter.mp h).2
  simpa using this

lemma mem_format_addresses (c : Char) (s : Str) (hc : c ∈ format_addresses s) :
    c = ';' ∨ c ∈ replaceSteps s := by
  unfold format_addresses ensureTrailingSem ensureLeadingSem at hc
  split at hc <;> split at hc <;>
    (try simp only [List.mem_append, List.mem_cons, List.mem_singleton] at hc) <;>
    tauto

lemma format_addresses_no_space (s : Str) :
    (format_addresses s).all (fun c => c != ' ') = true := by
  rw [List.all_eq_true]
  intro c hc
  rcases mem_format_addresses c s hc with h | h
  · subst h; decide
  · exact mem_replaceSteps_ne_space c s h

lemma splitChar_ne_nil (sep : Char) (l : Str) : splitChar sep l ≠ [] := by
  cases l with
  | nil => simp [splitChar]
  | cons c cs =>
    unfold splitChar
    split
    · simp
    · split <;> simp

lemma address_list_length_pos (a : Str) : 1 ≤ (address_list a).length := by
  have h := splitChar_ne_nil ';' ((stripLeadingSem (a.filter (fun c => c ≠ ' '))).dropLast)
  unfold address_list
  cases hs : splitChar ';' ((stripLeadingSem (a.filter (fun c => c ≠ ' '))).dropLast) with
  | nil => exact absurd hs h
  | cons x xs => simp

lemma truncateLoop_spec (maxL : Nat) (h2 : 2 ≤ maxL) :
    ∀ fuel l, l.length ≤ fuel →
      ∃ r k, truncateLoop maxL fuel l = some r ∧
        (List.intercalate [';'] r).length + 2 ≤ maxL ∧ r = l.take k := by
  intro fuel
  induction fuel with
  | zero =>
    intro l hl
    have hnil : l = [] := List.length_eq_zero.mp (Nat.le_zero.mp hl)
    subst hnil
    rw [truncateLoop.eq_def]
    have hcond : ¬ ((List.intercalate [';'] ([] : List Str)).length + 2 > maxL) := by
      simp [List.intercalate]
      omega
    rw [if_neg hcond]
    refine ⟨[], 0, rfl, ?_, by simp⟩
    simp [List.intercalate]
    omega
  | succ f ih =>
    intro l hl
    rw [truncateLoop.eq_def]
    by_cases hc : (List.intercalate [';'] l).length + 2 > maxL
    · rw [if_pos hc]
      cases l with
      | nil =>
        exact absurd hc (by simp [List.intercalate]; omega)
      | cons x xs =>
        have hlen : ((x :: xs).dropLast).length ≤ f := by
          rw [List.length_dropLast]
          simp only [List.length_cons] at hl ⊢
          omega
        obtain ⟨r, k, h1, hle, h3⟩ := ih ((x :: xs).dropLast) hlen
        refine ⟨r, min k ((x :: xs).length - 1), h1, hle, ?_⟩
        rw [h3, List.dropLast_eq_take, List.take_take]
    · rw [if_neg hc]
      exact ⟨l, l.length, rfl, by omega, by simp⟩

/-- C1: the expiration sweep deletes exactly those nodes whose `modified`
timestamp is strictly older than `now` minus `NODE_EXPIRATION` days and
which have no incoming and no outgoing link references, and deletes
nothing at all when either `NODE_EXPIRATION` or `LINK_EXPIRATION` is
disabled; nodes modified more recently than the cutoff, or referenced by
any link, are retained. -/
theorem delete_expired_nodes_correct (st : NetSettings) (now : Int)
    (nodes : List Node) (n : Node) (h : n ∈ nodes) :
    n ∉ delete_expired_nodes st now nodes ↔
      ∃ ne le, st.nodeExpiration = some ne ∧ st.linkExpiration = some le ∧
        n.modified < now - ne * 86400 ∧ n.sourceLinkCount = 0 ∧
        n.targetLinkCount = 0 := by
  rcases st with ⟨ne?, le?⟩
  cases ne? with
  | none => simp [delete_expired_nodes, h]
  | some ne =>
    cases le? with
    | none => simp [delete_expired_nodes, h]
    | some le =>
      simp [delete_expired_nodes, List.mem_filter, h, nodeIsExpired]
      omega

/-- C1 witness: with both expirations set to 30 days and `now = 0`, the
node modified 40 days ago with no links is deleted, the 40-day-old node
with a link is retained, and the 10-day-old node is retained. -/
theorem sweep_witness :
    decide (sweepA ∈ delete_expired_nodes st30 0 sweepNodes) = false ∧
    sweepB ∈ delete_expired_nodes st30 0 sweepNodes ∧
    sweepC ∈ delete_expired_nodes st30 0 sweepNodes := by
  refine ⟨decide_eq_false ?_, by decide, by decide⟩
  exact (delete_expired_nodes_correct st30 0 sweepNodes sweepA (by decide)).mpr
    ⟨30, 30, rfl, rfl, by decide, rfl, rfl⟩

/-- C2 counterexample: `save` runs only `_format_addresses`, never
`truncate_addresses`, so a 520-character raw value is stored with length
522 > 510 by a persistence write. -/
theorem save_does_not_bound_cex :
    addressesMaxLength < ((save nBig).addresses).length ∧
    ((save nBig).addresses).length = 522 := by decide

/-- C2 amended: the length bound is enforced by `truncate_addresses`, not
by `save`: for every addresses string, `truncate_addresses` succeeds and
yields a string of length at most 510, equal to the input when it already
fits and otherwise obtained by keeping only an initial segment of the
ordered address list (addresses are dropped from the end, never from the
front). -/
theorem truncate_addresses_enforces_bound (a : Str) :
    ∃ r, truncate_addresses a = some r ∧ r.length ≤ addressesMaxLength ∧
      (r = a ∨ ∃ k, r = List.intercalate [';'] ((address_list a).take k)) := by
  unfold truncate_addresses
  by_cases hle : a.length ≤ addressesMaxLength
  · rw [if_pos hle]
    exact ⟨a, rfl, hle, Or.inl rfl⟩
  · rw [if_neg hle]
    obtain ⟨r, k, h1, h2, h3⟩ := truncateLoop_spec addressesMaxLength (by decide)
      (address_list a).length (address_list a) le_rfl
    refine ⟨List.intercalate [';'] r, by rw [h1]; rfl, by omega, Or.inr ⟨k, by rw [h3]⟩⟩

/-- C3 counterexample: normalizing the empty raw address string produces
`";"` (one delimiter), not `";;"`, and `netjson_id` of the normalized
string is defined (the string `";"` is truthy), not `None`. -/
theorem empty_normalization_cex :
    format_addresses [] = [';'] ∧
    decide (format_addresses [] = [';', ';']) = false ∧
    (netjson_id (format_addresses [])).isSome = true := by decide

/-- C3 amended: normalizing the empty raw address string produces exactly
`";"` (the prepended delimiter also satisfies the trailing-delimiter
check), and for such a node `netjson_id` is the empty string (defined but
empty), not `None`. -/
theorem empty_normalization_amended :
    format_addresses [] = [';'] ∧
    netjson_id (format_addresses []) = some [] := by decide

/-- C4 counterexample: on a 603-character two-address canonical string,
`truncate_addresses` stores the bare join of the retained addresses — the
result neither starts nor ends with the delimiter, so truncation does not
reconstruct the canonical bounded form. -/
theorem truncate_not_rebounded_cex :
    truncate_addresses bigTwo = some (List.replicate 300 'a') ∧
    decide ((List.replicate 300 'a').head? = some ';') = false ∧
    decide ((List.replicate 300 'a').getLast? = some ';') = false := by decide

/-- C4 amended: `_format_addresses` always yields a string with a leading
and a trailing delimiter, but `truncate_addresses` stores
`';'.join(addresses)` without re-adding the bounding delimiters (they are
only restored by the next `_format_addresses` on save), as the
603-character example shows. -/
theorem format_bounded_truncate_unbounded :
    (∀ s : Str, (format_addresses s).head? = some ';' ∧
      (format_addresses s).getLast? = some ';') ∧
    truncate_addresses bigTwo = some (List.replicate 300 'a') :=
  ⟨fun s => ⟨format_addresses_head? s, format_addresses_getLast? s⟩, by decide⟩

/-- C5: for every addresses string whose length exceeds the maximum field
length, `truncate_addresses` yields a string of length at most the
maximum whose retained addresses are an initial segment (a prefix) of the
original ordered address list. -/
theorem truncate_addresses_bound (a : Str) (h : addressesMaxLength < a.length) :
    ∃ r, truncate_addresses a = some r ∧ r.length ≤ addressesMaxLength ∧
      ∃ k, r = List.intercalate [';'] ((address_list a).take k) := by
  unfold truncate_addresses
  rw [if_neg (by omega)]
  obtain ⟨r, k, h1, h2, h3⟩ := truncateLoop_spec addressesMaxLength (by decide)
    (address_list a).length (address_list a) le_rfl
  exact ⟨List.intercalate [';'] r, by rw [h1]; rfl, by omega, k, by rw [h3]⟩

/-- C5 witness: the 604-character three-address string exceeds the
maximum and is truncated to an initial segment within the bound. -/
theorem truncate_bound_witness :
    addressesMaxLength < bigFive.length ∧
    (∃ r, truncate_addresses bigFive = some r ∧ r.length ≤ addressesMaxLength ∧
      ∃ k, r = List.intercalate [';'] ((address_list bigFive).take k)) :=
  ⟨by decide, truncate_addresses_bound bigFive (by decide)⟩

/-- C6 counterexample: normalization keeps a tab character — the input
`"a\tb"` normalizes to `";a\tb;"`, which contains internal whitespace. -/
theorem whitespace_cex :
    '\t' ∈ format_addresses ['a', '\t', 'b'] ∧
    format_addresses ['a', '\t', 'b'] = [';', 'a', '\t', 'b', ';'] := by decide

/-- C6 amended: normalization strips only the space character `' '`
(`replace(' ', '')`), so the output never contains a space, but other
whitespace characters such as tabs survive. -/
theorem only_spaces_stripped :
    (∀ s : Str, (format_addresses s).all (fun c => c != ' ') = true) ∧
    '\t' ∈ format_addresses ['a', '\t', 'b'] :=
  ⟨format_addresses_no_space, by decide⟩

/-- C7: for every addresses string — including one whose single address is
longer than the maximum field length — `truncate_addresses` terminates
without crashing: the removal loop strictly shortens the list each
iteration and reaches a non-overflowing state, with the empty list as the
floor (the 602-character single-address input truncates to the empty
string). -/
theorem truncate_addresses_total :
    (∀ a : Str, (truncate_addresses a).isSome = true) ∧
    truncate_addresses longSingle = some [] := by
  constructor
  · intro a
    unfold truncate_addresses
    by_cases hle : a.length ≤ addressesMaxLength
    · rw [if_pos hle]; rfl
    · rw [if_neg hle]
      obtain ⟨r, k, h1, h2, h3⟩ := truncateLoop_spec addressesMaxLength (by decide)
        (address_list a).length (address_list a) le_rfl
      rw [h1]; rfl
  · decide

/-- C8 counterexample: for a node whose addresses string is `";;"`,
`address_list` yields a sequence containing one empty string (no
special-casing in the source), and `netjson_id` is defined but empty. -/
theorem address_list_empty_cex :
    address_list [';', ';'] = [[]] ∧ netjson_id [';', ';'] = some [] := by decide

/-- C8 amended: `address_list` never yields the empty sequence — for empty
or delimiter-only addresses it yields a sequence containing exactly one
empty string — and `netjson_id` is defined exactly when the addresses
string is non-empty, in which case it may be the empty string. -/
theorem address_list_amended :
    (∀ a : Str, 1 ≤ (address_list a).length) ∧
    address_list [';', ';'] = [[]] ∧
    (∀ a : Str, (netjson_id a).isSome = !a.isEmpty) := by
  refine ⟨address_list_length_pos, by decide, ?_⟩
  intro a
  unfold netjson_id
  by_cases h : a.isEmpty
  · rw [if_pos h, h]
    rfl
  · rw [if_neg h]
    have hne : a.isEmpty = false := by
      revert h
      cases a.isEmpty <;> simp
    rw [hne]
    have h1 := address_list_length_pos a
    cases hs : address_list a with
    | nil => rw [hs] at h1; simp at h1
    | cons x xs => rfl

/-- C9: evaluation of the aliasing bug — `json` stores
`self.properties` itself into the output mapping and then assigns
`netjson['properties']['created']` / `['modified']`, so for a node whose
stored `properties` was the empty mapping, after the call the stored
mapping holds the two injected timestamp keys instead of staying
unchanged. -/
theorem json_mutates_stored_properties :
    n9.properties = [] ∧
    (jsonNode n9).2.properties =
      [(createdKey, JVal.i 5), (modifiedKey, JVal.i 7)] := by
  constructor
  · rfl
  · rfl

lemma leadsWith_append_same (a : Str) :
    ∀ u v, leadsWith (a ++ u) (a ++ v) = leadsWith u v := by
  induction a with
  | nil => intro u v; rfl
  | cons x xs ih =>
    intro u v
    simp only [List.cons_append, leadsWith, beq_self_eq_true, Bool.true_and]
    exact ih u v

lemma occursIn_needs_semicolon (m : Str) (hm : m ≠ []) :
    ∀ w, ';' ∉ w → occursIn (';' :: m) (w ++ [';']) = false := by
  intro w
  induction w with
  | nil =>
    intro _
    cases m with
    | nil => exact absurd rfl hm
    | cons c cs => simp [occursIn, leadsWith]
  | cons x w2 ih =>
    intro hw
    have hx : (';' == x) = false := by
      rw [beq_eq_false_iff_ne]
      intro h
      exact hw (h ▸ List.mem_cons_self x w2)
    have hw2 : ';' ∉ w2 := fun h => hw (List.mem_cons_of_mem _ h)
    simp only [List.cons_append, occursIn, leadsWith, hx, Bool.false_and,
      Bool.false_or]
    exact ih hw2

lemma occursIn_wrap_extension (a d : Str) (hd : d ≠ []) (ha : ';' ∉ a)
    (hdm : ';' ∉ d) :
    occursIn (wrapAddress a) (wrapAddress (a ++ d)) = false := by
  unfold wrapAddress
  rw [occursIn]
  have h1 : leadsWith (';' :: (a ++ [';'])) (';' :: ((a ++ d) ++ [';'])) = false := by
    simp only [leadsWith, beq_self_eq_true, Bool.true_and]
    rw [List.append_assoc, leadsWith_append_same]
    cases d with
    | nil => exact absurd rfl hd
    | cons c cs =>
      have hc : (';' == c) = false := by
        rw [beq_eq_false_iff_ne]
        intro h
        exact hdm (h ▸ List.mem_cons_self c cs)
      simp [leadsWith, hc]
  have h2 : occursIn (';' :: (a ++ [';'])) ((a ++ d) ++ [';']) = false := by
    apply occursIn_needs_semicolon
    · simp
    · intro hmem
      rcases List.mem_append.mp hmem with h | h
      · exact ha h
      · exact hdm h
  rw [h1, h2]
  rfl

lemma matchesAddress_extension_false (a d : Str) (t : Nat) (n : Node)
    (hd : d ≠ []) (ha : ';' ∉ a) (hdm : ';' ∉ d)
    (hn : n.addresses = wrapAddress (a ++ d)) :
    matchesAddress a t n = false := by
  unfold matchesAddress
  rw [hn, occursIn_wrap_extension a d hd ha hdm, Bool.and_false]

/-- C10: identity lookup matches a node only when the queried address
wrapped in its own bounding delimiters occurs as a substring of the
node's stored addresses — for `get_from_address` every returned node
satisfies that condition, and `count_address` is positive only when some
stored node satisfies it; and for every queried address and every stored
node whose only (delimiter-bounded, hence semicolon-free) address is a
strict extension of the queried address, neither lookup matches. -/
theorem lookup_requires_bounded_substring :
    (∀ (a : Str) (t : Nat) (nodes : List Node) (n : Node),
        get_from_address a t nodes = some n →
        n.topology = t ∧ occursIn (wrapAddress a) n.addresses = true) ∧
    (∀ (a : Str) (t : Nat) (nodes : List Node),
        0 < count_address a t nodes →
        ∃ n, n ∈ nodes ∧ n.topology = t ∧
          occursIn (wrapAddress a) n.addresses = true) ∧
    (∀ (a d : Str) (t : Nat) (nodes : List Node),
        d ≠ [] → ';' ∉ a → ';' ∉ d →
        (∀ n ∈ nodes, n.addresses = wrapAddress (a ++ d)) →
        get_from_address a t nodes = none ∧ count_address a t nodes = 0) := by
  refine ⟨?_, ?_, ?_⟩
  · intro a t nodes n hget
    have hmem : n ∈ nodes.filter (matchesAddress a t) := by
      unfold get_from_address at hget
      exact List.mem_of_mem_head? (Option.mem_def.mpr hget)
    have hp := (List.mem_filter.mp hmem).2
    unfold matchesAddress at hp
    rw [Bool.and_eq_true] at hp
    exact ⟨by simpa using hp.1, hp.2⟩
  · intro a t nodes hpos
    unfold count_address at hpos
    have hne : nodes.filter (matchesAddress a t) ≠ [] := by
      intro h
      rw [h] at hpos
      simp at hpos
    obtain ⟨n, hn⟩ := List.exists_mem_of_ne_nil _ hne
    have hmem := List.mem_filter.mp hn
    have hp := hmem.2
    unfold matchesAddress at hp
    rw [Bool.and_eq_true] at hp
    exact ⟨n, hmem.1, by simpa using hp.1, hp.2⟩
  · intro a d t nodes hd ha hdm hstore
    have hfilter : nodes.filter (matchesAddress a t) = [] := by
      rw [List.filter_eq_nil_iff]
      intro n hn
      rw [matchesAddress_extension_false a d t n hd ha hdm (hstore n hn)]
      simp
    constructor
    · unfold get_from_address
      rw [hfilter]
      rfl
    · unfold count_address
      rw [hfilter]
      rfl

/-- C10 witness: looking up the full stored address `10.0.0.10` finds the
node and the found/counted node satisfies the bounded-substring
condition, while the shorter address `10.0.0.1` — of which the stored
`10.0.0.10` is a strict extension by the digit `0` — matches neither
lookup. -/
theorem lookup_witness :
    (nodeTen.topology = 0 ∧
      occursIn (wrapAddress addrTen) nodeTen.addresses = true) ∧
    (∃ n, n ∈ [nodeTen] ∧ n.topology = 0 ∧
      occursIn (wrapAddress addrTen) n.addresses = true) ∧
    (get_from_address addrOne 0 [nodeTen] = none ∧
      count_address addrOne 0 [nodeTen] = 0) :=
  ⟨lookup_requires_bounded_substring.1 addrTen 0 [nodeTen] nodeTen (by decide),
   lookup_requires_bounded_substring.2.1 addrTen 0 [nodeTen] (by decide),
   lookup_requires_bounded_substring.2.2 addrOne ['0'] 0 [nodeTen] (by decide)
     (by decide) (by decide) (by decide)⟩
